import Mathlib

/-!
Verification development for the uni-cache repository (src/UniCache.js and the
backend implementations).  JavaScript values stored in a cache snapshot are
modelled by the inductive type `JSVal`; numbers are modelled as integers (the
cached data is JSON-representable and the claims under study only involve
integer arithmetic).  JavaScript's `undefined` is a first-class value `undefined`,
as in JS itself; an object is an insertion-ordered association list of own
properties; an array carries its element slots (a `none` slot is a JS hole)
together with its non-index (expando) own properties.  In-place mutation of the
tree-shaped snapshot is modelled by functional update along the same path.
-/

inductive JSVal where
  | undefined : JSVal
  | null : JSVal
  | bool : Bool → JSVal
  | num : Int → JSVal
  | str : String → JSVal
  | arr : List (Option JSVal) → List (String × JSVal) → JSVal
  | obj : List (String × JSVal) → JSVal

/-- Test for JS `undefined`. -/
def JSVal.isUndefined : JSVal → Bool
  | .undefined => true
  | _ => false

/-- Test for `Array.isArray`. -/
def JSVal.isArray : JSVal → Bool
  | .arr _ _ => true
  | _ => false

/-- The walk in `getProperties`/`setProperties` descends only through values
that pass `current !== null && typeof current === 'object'`, i.e. plain
objects and arrays in this model. -/
def JSVal.isContainer : JSVal → Bool
  | .obj _ => true
  | .arr _ _ => true
  | _ => false

/-- Own-property lookup in an association list: first binding wins, as for a
JS object (whose keys are unique). -/
def lookupProp : List (String × JSVal) → String → Option JSVal
  | [], _ => none
  | (k, x) :: rest, p => if k = p then some x else lookupProp rest p

/-- Property assignment in an association list: an existing key keeps its
position, a new key is appended, as for a JS object. -/
def setEntry : List (String × JSVal) → String → JSVal → List (String × JSVal)
  | [], p, v => [(p, v)]
  | (k, x) :: rest, p, v =>
      if k = p then (p, v) :: rest else (k, x) :: setEntry rest p v

/-- Removal of a property binding (JS `delete obj[p]`). -/
def removeEntry : List (String × JSVal) → String → List (String × JSVal)
  | [], _ => []
  | (k, x) :: rest, p => if k = p then rest else (k, x) :: removeEntry rest p

/-- Digits of a numeric string literal to a natural number. -/
def digitsToNat (cs : List Char) : Nat :=
  cs.foldl (fun acc c => acc * 10 + (c.toNat - '0'.toNat)) 0

/-- Canonical array-index strings: nonempty, all digits, no leading zero
(except "0" itself), exactly the strings `p` with `hasOwnProperty(arr, p)`
behaving as element access in JS (dense arrays). -/
def canonIndex? (s : String) : Option Nat :=
  if s.length > 0 && s.data.all Char.isDigit && (s == "0" || s.front != '0') then
    some (digitsToNat s.data)
  else none

/-- JS element write `arr[i] = v` on the element slots, padding with holes
(`none`) when `i` is beyond the current length, as JS does. -/
def setIdx : List (Option JSVal) → Nat → JSVal → List (Option JSVal)
  | [], 0, v => [some v]
  | [], n + 1, v => none :: setIdx [] n v
  | _ :: rest, 0, v => some v :: rest
  | e :: rest, n + 1, v => e :: setIdx rest n v

/-- Own-property read `current[prop]` on a container, returning `none` exactly
when `Object.prototype.hasOwnProperty.call(current, prop)` is false (a hole in
an array is not an own property). -/
def JSVal.getOwn : JSVal → String → Option JSVal
  | .obj es, p => lookupProp es p
  | .arr es xs, p =>
      match canonIndex? p with
      | some i => (es.get? i).bind id
      | none => lookupProp xs p
  | _, _ => none

/-- Property write `target[prop] = v` on a container (identity on
non-containers, which the callers never reach). -/
def setChild : JSVal → String → JSVal → JSVal
  | .obj es, p, v => .obj (setEntry es p v)
  | .arr es xs, p, v =>
      match canonIndex? p with
      | some i => .arr (setIdx es i v) xs
      | none => .arr es (setEntry xs p v)
  | t, _, _ => t

/-- JS `delete target[prop]` on a container: on an array index it leaves a
hole and keeps the length, as JS does. -/
def JSVal.removeOwn : JSVal → String → JSVal
  | .obj es, p => .obj (removeEntry es p)
  | .arr es xs, p =>
      match canonIndex? p with
      | some i => .arr (es.set i none) xs
      | none => .arr es (removeEntry xs p)
  | t, _ => t

/-- Translation of `getProperties` (src/UniCache.js): walk the pre-split
segment list; return `undefined` the moment the current value is `null`, not
an object, or lacks the own property; with an empty segment list the walk
returns the starting value itself. -/
def getProperties : JSVal → List String → JSVal
  | cur, [] => cur
  | cur, p :: ps =>
      if cur.isContainer then
        match cur.getOwn p with
        | some v => getProperties v ps
        | none => .undefined
      else .undefined

/-- The intermediate-container step of `setProperties`: `target[prop]` is kept
when it is a non-null object, and overwritten with a fresh `{}` when it is
`undefined`, `null`, or not an object. -/
def childContainer : Option JSVal → JSVal
  | some c => if c.isContainer then c else .obj []
  | none => .obj []

/-- Translation of `setProperties` (src/UniCache.js): walk all but the last
segment creating/normalising intermediate containers, then assign the last
segment; with an empty segment list nothing is written (`props.length > 0`
guard). -/
def setProperties : JSVal → List String → JSVal → JSVal
  | t, [], _ => t
  | t, [p], v => setChild t p v
  | t, p :: q :: qs, v =>
      setChild t p (setProperties (childContainer (t.getOwn p)) (q :: qs) v)

/-- Integer fragment of the JS `Number(x)` coercion; `none` encodes `NaN`.
Numbers are modelled as integers, so string coercion follows JS exactly on
optionally signed decimal integer literals with surrounding whitespace (the
empty and all-whitespace strings coerce to 0); object and array coercion via
`ToPrimitive` is modelled as `NaN`. -/
def strToInt? (s : String) : Option Int :=
  let t := s.trim
  if t = "" then some 0
  else if t.startsWith "-" then
    (decDigits? (t.drop 1)).map (fun n => -(n : Int))
  else if t.startsWith "+" then
    (decDigits? (t.drop 1)).map (fun n => (n : Int))
  else (decDigits? t).map (fun n => (n : Int))
where
  decDigits? (t : String) : Option Nat :=
    if t.length > 0 && t.data.all Char.isDigit then some (digitsToNat t.data) else none

/-- JS `Number(v)` on a cached value (integer fragment, `none` = `NaN`). -/
def jsNumber : JSVal → Option Int
  | .undefined => none
  | .null => some 0
  | .bool b => some (if b then 1 else 0)
  | .num n => some n
  | .str s => strToInt? s
  | .arr _ _ => none
  | .obj _ => none

/-- Translation of the delete walk in `UniCache.delete` (src/UniCache.js):
the loop returns early (result `none`, nothing changed) as soon as the current
value is `null`, not an object, or lacks the own property — including for the
final segment; otherwise the leaf is removed from its parent. An empty segment
list never reaches the removal (`parent` stays null). -/
def deletePath : JSVal → List String → Option JSVal
  | _, [] => none
  | cur, [p] =>
      if cur.isContainer then
        match cur.getOwn p with
        | some _ => some (cur.removeOwn p)
        | none => none
      else none
  | cur, p :: q :: qs =>
      if cur.isContainer then
        match cur.getOwn p with
        | some child =>
            match deletePath child (q :: qs) with
            | some child' => some (setChild cur p child')
            | none => none
        | none => none
      else none

/-- Boolean mirror of the delete walk succeeding: every segment of the path
is present (own property of a container) along the descent. -/
def hasPathB : JSVal → List String → Bool
  | _, [] => true
  | cur, p :: ps =>
      cur.isContainer &&
        match cur.getOwn p with
        | some v => hasPathB v ps
        | none => false

/-- In-memory state of a `UniCache` instance: the snapshot `this.inMemoryData`
(always a plain JS object, kept here as its binding list) and `this.isDirty`. -/
structure CacheState where
  inMemoryData : List (String × JSVal)
  isDirty : Bool

/-- The snapshot as a JS value. -/
def CacheState.root (s : CacheState) : JSVal := .obj s.inMemoryData

/-- Bindings of an object value (the snapshot root is always an object). -/
def rootEntries : JSVal → List (String × JSVal)
  | .obj es => es
  | _ => []

/-- `UniCache.get`: `getProperties(this.inMemoryData, key)`. -/
def UniCache.get (s : CacheState) (key : List String) : JSVal :=
  getProperties s.root key

/-- `UniCache.set`: `setProperties` then `this.isDirty = true`. -/
def UniCache.set (s : CacheState) (key : List String) (v : JSVal) : CacheState :=
  { inMemoryData := rootEntries (setProperties s.root key v), isDirty := true }

/-- `UniCache.has`: `getProperties(this.inMemoryData, key) !== undefined`. -/
def UniCache.has (s : CacheState) (key : List String) : Bool :=
  !(UniCache.get s key).isUndefined

/-- `UniCache.delete`: run the delete walk; when the path is not found the
method returns with the state untouched, otherwise the leaf is removed and
the dirty flag is set. -/
def UniCache.delete (s : CacheState) (key : List String) : CacheState :=
  match deletePath s.root key with
  | some d => { inMemoryData := rootEntries d, isDirty := true }
  | none => s

/-- `UniCache.clear`: `this.inMemoryData = {}` and (unconditionally, last
assignment of the method) `this.isDirty = true`. -/
def UniCache.clear (_s : CacheState) : CacheState :=
  { inMemoryData := [], isDirty := true }

/-- `UniCache.add`: `currentValue = Number(getProperties(...)) || 0`, then
`setProperties(key, currentValue + count)` and `this.isDirty = true`
(the count is an integer here; `Number(x) || 0` maps `NaN` to 0 and is the
identity on integers). -/
def UniCache.add (s : CacheState) (key : List String) (count : Int) : CacheState :=
  { inMemoryData :=
      rootEntries (setProperties s.root key
        (.num ((jsNumber (getProperties s.root key)).getD 0 + count))),
    isDirty := true }

/-- `UniCache.subtract`: as `add` with `currentValue - count`. -/
def UniCache.subtract (s : CacheState) (key : List String) (count : Int) : CacheState :=
  { inMemoryData :=
      rootEntries (setProperties s.root key
        (.num ((jsNumber (getProperties s.root key)).getD 0 - count))),
    isDirty := true }

/-- The value stored by `UniCache.push` at the key: a non-array current value
is replaced by a fresh empty array before the element is appended. -/
def pushValue (cur e : JSVal) : JSVal :=
  match cur with
  | .arr es xs => .arr (es ++ [some e]) xs
  | _ => .arr [some e] []

/-- `UniCache.push`: read the current value, append to it (the source mutates
the array in place through the alias returned by `getProperties`; on the
tree-shaped snapshot that equals a functional update along the same path, and
in the non-array case the source itself stores the fresh array with
`setProperties`), then `this.isDirty = true`. -/
def UniCache.push (s : CacheState) (key : List String) (e : JSVal) : CacheState :=
  { inMemoryData :=
      rootEntries (setProperties s.root key (pushValue (getProperties s.root key) e)),
    isDirty := true }

/-- Observable outcome of one `UniCache.sync` call. -/
inductive SyncOutcome where
  | noBackend
  | skippedClean
  | synced
  | raised
deriving DecidableEq

/-- Translation of `UniCache.sync(forceSync)` (src/UniCache.js): return at
once without a backend; skip when `!this.isDirty && !forceSync`; otherwise
attempt `backend.save` (its success is the environment parameter `saveOk`):
on success `this.isDirty = false`, on failure the dirty flag is left as it
was and the error is rethrown to the caller (outcome `raised`). -/
def UniCache.sync (s : CacheState) (hasBackend forceSync saveOk : Bool) :
    CacheState × SyncOutcome :=
  if hasBackend = false then (s, .noBackend)
  else if s.isDirty = false && forceSync = false then (s, .skippedClean)
  else if saveOk then ({ s with isDirty := false }, .synced)
  else (s, .raised)

/-- Events on the SQLite backend's mutex and transaction, in order. -/
inductive TxEvent where
  | acquire
  | beginTx
  | commit
  | rollback
  | release
deriving DecidableEq

/-- The SQLite table `cache_data`, one row per top-level key; serialization of
the value column (`_stringifyValue`/`_parseValue`) round-trips and is modelled
as the identity. -/
abbrev Table := List (String × JSVal)

/-- Translation of `SQLiteBackend._withTransaction` (src/backends/SQLiteBackend.js):
acquire the mutex; connect (failure before `BEGIN` propagates with no
rollback); `BEGIN IMMEDIATE TRANSACTION`; run the operation on the table; on
success `COMMIT` publishes the new table; on any failure after the begin a
`ROLLBACK` is attempted, the durable table keeps its pre-transaction contents,
and the original error is rethrown; the `finally` block releases the mutex on
every path.  `connectOk`, `beginOk`, `commitOk` are environment parameters for
the fallibility of those steps.  Result: the operation's value or the error,
the durable table afterwards, and the event trace. -/
def withTransaction {α : Type} (connectOk beginOk commitOk : Bool)
    (op : Table → Except String (Table × α)) (tbl : Table) :
    Except String α × Table × List TxEvent :=
  if connectOk = false then
    (.error "connect failed", tbl, [.acquire, .release])
  else if beginOk = false then
    (.error "begin failed", tbl, [.acquire, .rollback, .release])
  else
    match op tbl with
    | .error e => (.error e, tbl, [.acquire, .beginTx, .rollback, .release])
    | .ok (tbl', a) =>
        if commitOk then (.ok a, tbl', [.acquire, .beginTx, .commit, .release])
        else (.error "commit failed", tbl, [.acquire, .beginTx, .rollback, .release])

/-- Translation of `SQLiteBackend._atomicUpdate(key, updateCallback)`: inside
a `_withTransaction`, SELECT the row (an absent row reads as `undefined`),
apply the pure update callback, INSERT OR REPLACE the new value.  `readOk`
and `writeOk` are environment parameters for the fallibility of the SELECT
and the INSERT. -/
def atomicUpdate (connectOk beginOk readOk writeOk commitOk : Bool)
    (key : String) (updateCallback : JSVal → JSVal) (tbl : Table) :
    Except String JSVal × Table × List TxEvent :=
  withTransaction connectOk beginOk commitOk
    (fun t =>
      if readOk = false then .error "read failed"
      else
        let currentValue := (lookupProp t key).getD .undefined
        let newValue := updateCallback currentValue
        if writeOk = false then .error "write failed"
        else .ok (setEntry t key newValue, newValue))
    tbl

/-- Update callback of `SQLiteBackend.add`: a stored finite number is kept,
anything else reads as 0, then the validated integer count is added. -/
def sqliteAddCb (n : Int) : JSVal → JSVal
  | .num m => .num (m + n)
  | _ => .num n

/-- Update callback of `SQLiteBackend.subtract`. -/
def sqliteSubtractCb (n : Int) : JSVal → JSVal
  | .num m => .num (m - n)
  | _ => .num (-n)

/-- Update callback of `SQLiteBackend.push`: a non-array current value is
replaced by a fresh empty array before the element is appended. -/
def sqlitePushCb (e : JSVal) : JSVal → JSVal
  | .arr es xs => .arr (es ++ [some e]) xs
  | _ => .arr [some e] []

/-- `SQLiteBackend.add` after its integer validation of the count: an
`_atomicUpdate` with the add callback. -/
def sqliteAdd (connectOk beginOk readOk writeOk commitOk : Bool)
    (key : String) (n : Int) (tbl : Table) :
    Except String JSVal × Table × List TxEvent :=
  atomicUpdate connectOk beginOk readOk writeOk commitOk key (sqliteAddCb n) tbl

/-- `SQLiteBackend.subtract` after its integer validation of the count. -/
def sqliteSubtract (connectOk beginOk readOk writeOk commitOk : Bool)
    (key : String) (n : Int) (tbl : Table) :
    Except String JSVal × Table × List TxEvent :=
  atomicUpdate connectOk beginOk readOk writeOk commitOk key (sqliteSubtractCb n) tbl

/-- `SQLiteBackend.push`: an `_atomicUpdate` with the append callback. -/
def sqlitePush (connectOk beginOk readOk writeOk commitOk : Bool)
    (key : String) (e : JSVal) (tbl : Table) :
    Except String JSVal × Table × List TxEvent :=
  atomicUpdate connectOk beginOk readOk writeOk commitOk key (sqlitePushCb e) tbl

/-- Decides whether an `Except` result is the error case. -/
def exceptFailed {α : Type} : Except String α → Bool
  | .error _ => true
  | .ok _ => false

/-- Legacy `FileBackend.fetch` (src/backend.js): `fs.readFile` + `JSON.parse`;
a missing file (`ENOENT`) returns `null`.  The file is modelled post-parse:
`none` = missing. -/
def legacyFileFetch : Option JSVal → JSVal
  | none => .null
  | some d => d

/-- Legacy `RedisBackend.fetch` (src/backend.js): `JSON.parse(client.get(key))`;
an absent key makes `client.get` return `null` and `JSON.parse(null)` yields
`null`.  The stored blob is modelled post-parse: `none` = absent. -/
def legacyRedisFetch : Option JSVal → JSVal
  | none => .null
  | some d => d

/-- Current `FileBackend._loadData` (src/src/backends/FileBackend.js): a
missing file (`ENOENT`) and a JSON `SyntaxError` both return `{}`; otherwise
the parsed contents.  The file is modelled as absent (`none`), unparseable
(`some (.error _)`), or parsed (`some (.ok d)`). -/
def fileLoadData : Option (Except String JSVal) → JSVal
  | none => .obj []
  | some (.error _) => .obj []
  | some (.ok d) => d

theorem lookupProp_setEntry (es : List (String × JSVal)) (p : String) (v : JSVal) :
    lookupProp (setEntry es p v) p = some v := by
  induction es with
  | nil => simp [setEntry, lookupProp]
  | cons hd tl ih =>
      obtain ⟨k, x⟩ := hd
      by_cases h : k = p
      · simp [setEntry, lookupProp, h]
      · simp [setEntry, lookupProp, h, ih]

theorem get_setIdx (i : Nat) : ∀ (es : List (Option JSVal)) (v : JSVal),
    (setIdx es i v)[i]? = some (some v) := by
  induction i with
  | zero =>
      intro es v
      cases es <;> simp [setIdx]
  | succ n ih =>
      intro es v
      cases es with
      | nil => simpa [setIdx] using ih [] v
      | cons e rest => simpa [setIdx] using ih rest v

theorem getOwn_setChild (t : JSVal) (p : String) (v : JSVal)
    (h : t.isContainer = true) : (setChild t p v).getOwn p = some v := by
  cases t with
  | obj es => simp [setChild, JSVal.getOwn, lookupProp_setEntry]
  | arr es xs =>
      cases h2 : canonIndex? p with
      | some i => simp [setChild, JSVal.getOwn, h2, get_setIdx]
      | none => simp [setChild, JSVal.getOwn, h2, lookupProp_setEntry]
  | undefined => simp [JSVal.isContainer] at h
  | null => simp [JSVal.isContainer] at h
  | bool b => simp [JSVal.isContainer] at h
  | num n => simp [JSVal.isContainer] at h
  | str s => simp [JSVal.isContainer] at h

theorem setChild_isContainer (t : JSVal) (p : String) (v : JSVal)
    (h : t.isContainer = true) : (setChild t p v).isContainer = true := by
  cases t with
  | obj es => simp [setChild, JSVal.isContainer]
  | arr es xs =>
      cases h2 : canonIndex? p with
      | some i => simp [setChild, JSVal.isContainer, h2]
      | none => simp [setChild, JSVal.isContainer, h2]
  | undefined => simp [JSVal.isContainer] at h
  | null => simp [JSVal.isContainer] at h
  | bool b => simp [JSVal.isContainer] at h
  | num n => simp [JSVal.isContainer] at h
  | str s => simp [JSVal.isContainer] at h

theorem childContainer_isContainer (o : Option JSVal) :
    (childContainer o).isContainer = true := by
  cases o with
  | none => simp [childContainer, JSVal.isContainer]
  | some c => cases c <;> simp [childContainer, JSVal.isContainer]

theorem getProperties_setProperties (props : List String) :
    ∀ (t v : JSVal), props ≠ [] → t.isContainer = true →
      getProperties (setProperties t props v) props = v := by
  induction props with
  | nil => intro t v h _; exact absurd rfl h
  | cons p ps ih =>
      intro t v _ hc
      cases ps with
      | nil =>
          rw [show setProperties t [p] v = setChild t p v from rfl]
          simp [getProperties, setChild_isContainer t p v hc, getOwn_setChild t p v hc]
      | cons q qs =>
          rw [show setProperties t (p :: q :: qs) v
              = setChild t p (setProperties (childContainer (t.getOwn p)) (q :: qs) v) from rfl]
          simp only [getProperties, setChild_isContainer t p _ hc, if_true,
            getOwn_setChild t p _ hc]
          exact ih (childContainer (t.getOwn p)) v (by simp)
            (childContainer_isContainer (t.getOwn p))

theorem setProperties_obj (es : List (String × JSVal)) (props : List String) (v : JSVal) :
    ∃ es', setProperties (.obj es) props v = .obj es' := by
  cases props with
  | nil => exact ⟨es, rfl⟩
  | cons p ps =>
      cases ps with
      | nil => exact ⟨setEntry es p v, rfl⟩
      | cons q qs =>
          exact ⟨setEntry es p (setProperties (childContainer ((JSVal.obj es).getOwn p)) (q :: qs) v), rfl⟩

theorem get_of_setRoot (s : CacheState) (key : List String) (v : JSVal) (h : key ≠ []) :
    getProperties (.obj (rootEntries (setProperties s.root key v))) key = v := by
  obtain ⟨es', he⟩ := setProperties_obj s.inMemoryData key v
  rw [show s.root = JSVal.obj s.inMemoryData from rfl] at *
  rw [he]
  rw [show rootEntries (JSVal.obj es') = es' from rfl]
  rw [← he]
  exact getProperties_setProperties key (.obj s.inMemoryData) v h rfl

theorem deletePath_eq_none (key : List String) :
    ∀ (t : JSVal), hasPathB t key = false → deletePath t key = none := by
  induction key with
  | nil => intro t h; simp [hasPathB] at h
  | cons p ps ih =>
      intro t h
      by_cases hc : t.isContainer = true
      · cases hg : t.getOwn p with
        | some child =>
            cases ps with
            | nil => rw [hasPathB, hg] at h; simp [hasPathB, hc] at h
            | cons q qs =>
                rw [hasPathB, hg] at h
                simp only [hc, Bool.true_and] at h
                simp [deletePath, hc, hg, ih child h]
        | none =>
            cases ps with
            | nil => simp [deletePath, hc, hg]
            | cons q qs => simp [deletePath, hc, hg]
      · have hc' : t.isContainer = false := by
          cases hcc : t.isContainer
          · rfl
          · exact absurd hcc hc
        cases ps with
        | nil => simp [deletePath, hc']
        | cons q qs => simp [deletePath, hc']

/-- C1: for a cache with a backend attached, `sync` performs no backend write
when the dirty flag is false and force is false (it skips and leaves the state
untouched); when a write is attempted and succeeds, the dirty flag becomes
false; when the write fails, the state — hence the dirty flag, which stays
true if it was true — is unchanged and the error is re-raised to the caller
(outcome `raised`). -/
theorem sync_dirty_contract (s : CacheState) (forceSync saveOk : Bool) :
    (s.isDirty = false → forceSync = false →
      UniCache.sync s true forceSync saveOk = (s, .skippedClean)) ∧
    ((s.isDirty = true ∨ forceSync = true) → saveOk = true →
      (UniCache.sync s true forceSync saveOk).1.isDirty = false ∧
      (UniCache.sync s true forceSync saveOk).2 = .synced) ∧
    ((s.isDirty = true ∨ forceSync = true) → saveOk = false →
      (UniCache.sync s true forceSync saveOk).1 = s ∧
      (UniCache.sync s true forceSync saveOk).2 = .raised ∧
      (s.isDirty = true → (UniCache.sync s true forceSync saveOk).1.isDirty = true)) := by
  obtain ⟨data, dirty⟩ := s
  cases dirty <;> cases forceSync <;> cases saveOk <;> simp [UniCache.sync]

theorem sync_dirty_contract_witness :
    (UniCache.sync ⟨[], false⟩ true false true = (⟨[], false⟩, .skippedClean)) ∧
    ((UniCache.sync ⟨[("a", .num 1)], true⟩ true false true).1.isDirty = false ∧
      (UniCache.sync ⟨[("a", .num 1)], true⟩ true false true).2 = .synced) ∧
    ((UniCache.sync ⟨[("a", .num 1)], true⟩ true false false).1 = ⟨[("a", .num 1)], true⟩ ∧
      (UniCache.sync ⟨[("a", .num 1)], true⟩ true false false).2 = .raised ∧
      (UniCache.sync ⟨[("a", .num 1)], true⟩ true false false).1.isDirty = true) :=
  ⟨(sync_dirty_contract ⟨[], false⟩ false true).1 rfl rfl,
   (sync_dirty_contract ⟨[("a", .num 1)], true⟩ false true).2.1 (Or.inl rfl) rfl,
   let h := (sync_dirty_contract ⟨[("a", .num 1)], true⟩ false false).2.2 (Or.inl rfl) rfl
   ⟨h.1, h.2.1, h.2.2 rfl⟩⟩

/-- C2: for a compound atomic update through `SQLiteBackend._atomicUpdate`
(which is what `sqliteAdd`, `sqliteSubtract` and `sqlitePush` run, for any
update callback): once the transaction has begun, a failure of the read, the
write or the commit leads to an attempted rollback, the durable table is left
exactly as before the attempt, and the original error of the failing step is
re-raised to the caller; and on every path, success or failure, the mutex
acquired at entry is released exactly once, as the last event. -/
theorem atomicUpdate_contract (connectOk beginOk readOk writeOk commitOk : Bool)
    (key : String) (cb : JSVal → JSVal) (tbl : Table) :
    (connectOk = true → beginOk = true →
      (readOk = false ∨ writeOk = false ∨ commitOk = false) →
        exceptFailed (atomicUpdate connectOk beginOk readOk writeOk commitOk key cb tbl).1
            = true ∧
        (atomicUpdate connectOk beginOk readOk writeOk commitOk key cb tbl).2.1 = tbl ∧
        TxEvent.rollback ∈ (atomicUpdate connectOk beginOk readOk writeOk commitOk key cb tbl).2.2) ∧
    (connectOk = true → beginOk = true → readOk = false →
      (atomicUpdate connectOk beginOk readOk writeOk commitOk key cb tbl).1
          = .error "read failed") ∧
    (connectOk = true → beginOk = true → readOk = true → writeOk = false →
      (atomicUpdate connectOk beginOk readOk writeOk commitOk key cb tbl).1
          = .error "write failed") ∧
    (connectOk = true → beginOk = true → readOk = true → writeOk = true → commitOk = false →
      (atomicUpdate connectOk beginOk readOk writeOk commitOk key cb tbl).1
          = .error "commit failed") ∧
    ((atomicUpdate connectOk beginOk readOk writeOk commitOk key cb tbl).2.2.count
        TxEvent.release = 1 ∧
      (atomicUpdate connectOk beginOk readOk writeOk commitOk key cb tbl).2.2.getLast?
          = some TxEvent.release) := by
  cases connectOk <;> cases beginOk <;> cases readOk <;> cases writeOk <;> cases commitOk <;>
    simp [atomicUpdate, withTransaction, exceptFailed, List.count_cons]

theorem atomicUpdate_contract_witness :
    exceptFailed (sqliteAdd true true false true true "k" 1 [("k", .num 4)]).1 = true ∧
    (sqliteAdd true true false true true "k" 1 [("k", .num 4)]).2.1 = [("k", .num 4)] ∧
    TxEvent.rollback ∈ (sqliteAdd true true false true true "k" 1 [("k", .num 4)]).2.2 :=
  (atomicUpdate_contract true true false true true "k" (sqliteAddCb 1) [("k", .num 4)]).1
    rfl rfl (Or.inl rfl)

/-- C3 fails as stated: `UniCache.delete` returns early, leaving the dirty
flag untouched, when the path is not found — deleting a key that does not
exist does not set the dirty flag. -/
theorem mutators_dirty_cex :
    ¬ (∀ (s : CacheState) (key : List String), (UniCache.delete s key).isDirty = true) :=
  fun h => absurd (h ⟨[], false⟩ ["a"]) (by decide)

/-- C3 amended: each of `set`, `add`, `subtract`, `push` and `clear` sets the
dirty flag to true unconditionally after it runs, even when the net effect is
a no-op (such as clearing an already empty snapshot); `delete` sets it exactly
when the delete walk finds the full path, and returns the state untouched
otherwise. -/
theorem mutators_set_dirty :
    (∀ (s : CacheState) (key : List String) (v : JSVal),
      (UniCache.set s key v).isDirty = true) ∧
    (∀ (s : CacheState) (key : List String) (n : Int),
      (UniCache.add s key n).isDirty = true) ∧
    (∀ (s : CacheState) (key : List String) (n : Int),
      (UniCache.subtract s key n).isDirty = true) ∧
    (∀ (s : CacheState) (key : List String) (e : JSVal),
      (UniCache.push s key e).isDirty = true) ∧
    (∀ (s : CacheState), (UniCache.clear s).isDirty = true) ∧
    (∀ (s : CacheState) (key : List String),
      (deletePath s.root key).isSome = true → (UniCache.delete s key).isDirty = true) := by
  refine ⟨fun _ _ _ => rfl, fun _ _ _ => rfl, fun _ _ _ => rfl, fun _ _ _ => rfl,
    fun _ => rfl, ?_⟩
  intro s key h
  cases hd : deletePath s.root key with
  | some d => simp [UniCache.delete, hd]
  | none => rw [hd] at h; simp at h

theorem mutators_set_dirty_witness :
    (deletePath (CacheState.mk [("a", JSVal.num 1)] false).root ["a"]).isSome = true ∧
    (UniCache.delete ⟨[("a", JSVal.num 1)], false⟩ ["a"]).isDirty = true :=
  ⟨by decide, mutators_set_dirty.2.2.2.2.2 ⟨[("a", JSVal.num 1)], false⟩ ["a"] (by decide)⟩

/-- C4: when some segment of the path is absent along the delete walk, the
walk fails and `delete` is a no-op — the snapshot is unchanged and the dirty
flag is not set (the whole state is returned untouched). -/
theorem delete_missing_noop (s : CacheState) (key : List String)
    (h : hasPathB s.root key = false) : UniCache.delete s key = s := by
  simp [UniCache.delete, deletePath_eq_none key s.root h]

theorem delete_missing_noop_witness :
    hasPathB (CacheState.mk [("a", JSVal.num 1)] false).root ["b"] = false ∧
    UniCache.delete ⟨[("a", JSVal.num 1)], false⟩ ["b"] = ⟨[("a", JSVal.num 1)], false⟩ :=
  ⟨by decide, delete_missing_noop ⟨[("a", JSVal.num 1)], false⟩ ["b"] (by decide)⟩

/-- C5: for every cache state, nonempty path and value, `set(P, V)` followed
by `get(P)` returns V, and the `set` marks the dirty flag true. -/
theorem set_get_round_trip (s : CacheState) (key : List String) (v : JSVal)
    (h : key ≠ []) :
    UniCache.get (UniCache.set s key v) key = v ∧
    (UniCache.set s key v).isDirty = true :=
  ⟨get_of_setRoot s key v h, rfl⟩

theorem set_get_round_trip_witness :
    UniCache.get (UniCache.set ⟨[], false⟩ ["user", "name"] (.str "Alice")) ["user", "name"]
        = .str "Alice" ∧
    (UniCache.set ⟨[], false⟩ ["user", "name"] (.str "Alice")).isDirty = true :=
  set_get_round_trip ⟨[], false⟩ ["user", "name"] (.str "Alice") (by simp)

/-- C6 fails as stated for `get`: with an empty segment list the walk in
`getProperties` never runs and returns the whole snapshot object — here the
empty object of a fresh cache — and not the absence sentinel `undefined`. -/
theorem empty_path_cex : UniCache.get ⟨[], false⟩ [] ≠ JSVal.undefined := by
  simp [UniCache.get, getProperties, CacheState.root]

/-- C6 amended: with an empty segment list, `get` returns the entire snapshot
object (never the absence sentinel, since the snapshot root is an object) and
`set` leaves the snapshot completely unchanged. -/
theorem empty_path_behavior (s : CacheState) (v : JSVal) :
    UniCache.get s [] = .obj s.inMemoryData ∧
    (UniCache.set s [] v).inMemoryData = s.inMemoryData :=
  ⟨rfl, rfl⟩

/-- C7: `add(P, n)` reads the current value at P, coerces it with
`Number(x) || 0` (so a missing value — `undefined` — or any value whose
numeric coercion is NaN reads as 0), and stores current + n at P; hence two
`add`s on a path that reads as `undefined` leave exactly n1 + n2 there. -/
theorem add_contract (s : CacheState) (key : List String) (n1 n2 : Int)
    (h : key ≠ []) :
    UniCache.get (UniCache.add s key n1) key
        = .num ((jsNumber (UniCache.get s key)).getD 0 + n1) ∧
    (UniCache.get s key = .undefined →
      UniCache.get (UniCache.add (UniCache.add s key n1) key n2) key
          = .num (n1 + n2)) := by
  have h1 : UniCache.get (UniCache.add s key n1) key
      = .num ((jsNumber (UniCache.get s key)).getD 0 + n1) := get_of_setRoot s key _ h
  refine ⟨h1, fun habs => ?_⟩
  have h2 : UniCache.get (UniCache.add (UniCache.add s key n1) key n2) key
      = .num ((jsNumber (UniCache.get (UniCache.add s key n1) key)).getD 0 + n2) :=
    get_of_setRoot (UniCache.add s key n1) key _ h
  rw [h2, h1, habs]
  simp [jsNumber]

theorem add_contract_witness :
    UniCache.get (UniCache.add ⟨[], false⟩ ["c"] 2) ["c"]
        = .num ((jsNumber (UniCache.get ⟨[], false⟩ ["c"])).getD 0 + 2) ∧
    UniCache.get (UniCache.add (UniCache.add ⟨[], false⟩ ["c"] 2) ["c"] 3) ["c"]
        = .num (2 + 3) :=
  let h := add_contract ⟨[], false⟩ ["c"] 2 3 (by simp)
  ⟨h.1, h.2 rfl⟩

/-- C8: `push(P, e)` on a path whose current value is not an array (in
particular a missing key) replaces it with a fresh array before appending, so
`get(P)` then returns [e]; a second `push(P, e2)` appends, so `get(P)` returns
[e, e2]. -/
theorem push_contract (s : CacheState) (key : List String) (e e2 : JSVal)
    (h : key ≠ []) (hcur : (UniCache.get s key).isArray = false) :
    UniCache.get (UniCache.push s key e) key = .arr [some e] [] ∧
    UniCache.get (UniCache.push (UniCache.push s key e) key e2) key
        = .arr [some e, some e2] [] := by
  have h1 : UniCache.get (UniCache.push s key e) key
      = pushValue (UniCache.get s key) e := get_of_setRoot s key _ h
  have hv : pushValue (UniCache.get s key) e = .arr [some e] [] := by
    cases hg : UniCache.get s key <;> simp_all [pushValue, JSVal.isArray]
  have h2 : UniCache.get (UniCache.push (UniCache.push s key e) key e2) key
      = pushValue (UniCache.get (UniCache.push s key e) key) e2 :=
    get_of_setRoot (UniCache.push s key e) key _ h
  exact ⟨h1.trans hv, by rw [h2, h1, hv]; rfl⟩

theorem push_contract_witness :
    UniCache.get (UniCache.push ⟨[], false⟩ ["list"] (.num 1)) ["list"]
        = .arr [some (.num 1)] [] ∧
    UniCache.get
        (UniCache.push (UniCache.push ⟨[], false⟩ ["list"] (.num 1)) ["list"] (.str "x"))
        ["list"]
        = .arr [some (.num 1), some (.str "x")] [] :=
  push_contract ⟨[], false⟩ ["list"] (.num 1) (.str "x") (by simp) rfl

/-- C9 fails as stated: the `FileBackend.fetch` of src/backend.js returns
`null` when the cache file does not exist, and the `RedisBackend.fetch` of
src/backend.js parses an absent blob to `null` — not an empty mapping. -/
theorem fetch_null_cex :
    legacyFileFetch none = JSVal.null ∧ legacyRedisFetch none = JSVal.null ∧
    JSVal.null ≠ JSVal.obj [] :=
  ⟨rfl, rfl, fun h => JSVal.noConfusion h⟩

/-- C9 amended: the current `FileBackend._loadData` returns the full persisted
mapping and an empty mapping when nothing is stored or the stored file is
unparseable, but the legacy `FileBackend.fetch` and `RedisBackend.fetch` in
src/backend.js return `null` when nothing is stored. -/
theorem fetch_empty_behavior :
    fileLoadData none = .obj [] ∧
    fileLoadData (some (.error "bad json")) = .obj [] ∧
    (∀ d : JSVal, fileLoadData (some (.ok d)) = d) ∧
    legacyFileFetch none = .null ∧
    legacyRedisFetch none = .null :=
  ⟨rfl, rfl, fun _ => rfl, rfl, rfl⟩

/-- C10: `has(P)` returns true exactly when `get(P)` returns a value other
than `undefined` — it follows the same deep dot-path walk — and a key whose
stored value is literally `undefined` is reported as absent by `has`. -/
theorem has_iff_get (s : CacheState) (key : List String) :
    (UniCache.has s key = true ↔ UniCache.get s key ≠ JSVal.undefined) ∧
    UniCache.has ⟨[("a", JSVal.undefined)], false⟩ ["a"] = false := by
  refine ⟨?_, rfl⟩
  cases hg : UniCache.get s key <;> simp [UniCache.has, hg, JSVal.isUndefined]
